import Mathlib

/- Verification of the one-shot course-availability monitor
   (src/icu_monitor_one_shot.py).

   Shallow embedding notes.
   * HTML is modelled after the point where BeautifulSoup has produced the
     table rows: a `Row` carries the value of `tr.get("valign")` and, for each
     `td`, the string `td.get_text(" ", strip=True)`.  BeautifulSoup itself is
     an external library and is not part of the design.
   * Python `dict`s (insertion ordered, string keys) are association lists;
     `dictGet`/`dictSet` model `d.get(k)` / `d[k] = v`.
   * `re` character classes are modelled over ASCII.
   * The one statement of `parse_page` that can raise — `tds[1]` on a short
     row — is modelled by `Except`; every other row failure is a silent skip,
     as in the source.
   * JSON persistence round-trips records losslessly and a missing
     `"_gone_notified"` key reads back as false, so the persisted baseline is
     identified with the in-memory `Dict BRec`. -/

/-- A table row: the `valign` attribute (if present) and the text of each
`td` cell. -/
structure Row where
  valign : Option String
  cells : List String
deriving Repr, DecidableEq

/-- A freshly extracted course record, Python `{"open": ..., "seats": ...}`
(line 44).  The field `isOpen` models the Python key `"open"` (a Lean
keyword). -/
structure LRec where
  isOpen : Bool
  seats : Nat
deriving Repr, DecidableEq

/-- A baseline course record as persisted in `state.json`: `goneNotified`
models the `"_gone_notified"` key, with an absent key read as false. -/
structure BRec where
  isOpen : Bool
  seats : Nat
  goneNotified : Bool
deriving Repr, DecidableEq

/-- Notification events, one constructor per distinct message the script can
`notify` (lines 86, 97, 105, 107, 114, 122). -/
inductive Event where
  | initial (code : String) (isOpen : Bool) (seats : Nat)
  | appeared (code : String) (isOpen : Bool) (seats : Nat)
  | openChanged (code : String) (nowOpen : Bool) (prevSeats seats : Nat)
  | seatsChanged (code : String) (prevSeats seats : Nat)
  | disappeared (code : String)
deriving Repr, DecidableEq

/-- The course code an event refers to. -/
def eventCode : Event → String
  | .initial c _ _ => c
  | .appeared c _ _ => c
  | .openChanged c _ _ _ => c
  | .seatsChanged c _ _ => c
  | .disappeared c => c

/-- A Python `dict` with string keys, as an insertion-ordered association
list. -/
abbrev Dict (α : Type) : Type := List (String × α)

/-- Lookup, Python `d.get(k)` / `k in d`. -/
def dictGet {α : Type} : Dict α → String → Option α
  | [], _ => none
  | kv :: rest, k => if kv.1 = k then some kv.2 else dictGet rest k

/-- Assignment, Python `d[k] = v`: an existing key keeps its position, a new
key is appended. -/
def dictSet {α : Type} : Dict α → String → α → Dict α
  | [], k, v => [(k, v)]
  | kv :: rest, k, v => if kv.1 = k then (k, v) :: rest else kv :: dictSet rest k v

/-- Python `m.update(d)` (line 53): set every entry of `d` into `m` in
order. -/
def dictUpdate {α : Type} (m d : Dict α) : Dict α :=
  d.foldl (fun acc kv => dictSet acc kv.1 kv.2) m

/-- Model of `passes_filter` (lines 20-25).  The configuration lists
`COURSE_CODES` / `CODE_PREFIXES` are passed explicitly (`cc` / `cp`);
Python truthiness of a list is non-emptiness. -/
def passes_filter (cc cp : List String) (code : String) : Bool :=
  if cc ≠ [] then cc.contains code
  else if cp ≠ [] then cp.any (fun p => code.startsWith p)
  else true

/-- Word character for the regex `\b` boundary (ASCII model of `\w`). -/
def isWordChar (c : Char) : Bool :=
  ('A' ≤ c && c ≤ 'Z') || ('a' ≤ c && c ≤ 'z') || ('0' ≤ c && c ≤ '9') || c == '_'

/-- ASCII model of the regex class `[A-Z]`. -/
def isUpperAZ (c : Char) : Bool := 'A' ≤ c && c ≤ 'Z'

/-- ASCII model of the regex class `\d`. -/
def isDigit09 (c : Char) : Bool := '0' ≤ c && c ≤ '9'

/-- Try to match `[A-Z]{3}\d{3}` at the head of the character list, returning
the six matched characters and the remainder. -/
def codeAt : List Char → Option (List Char × List Char)
  | a :: b :: c :: d :: e :: f :: rest =>
    if isUpperAZ a && isUpperAZ b && isUpperAZ c &&
        isDigit09 d && isDigit09 e && isDigit09 f then
      some ([a, b, c, d, e, f], rest)
    else none
  | _ => none

/-- The `\b` after the match: end of string or a non-word character. -/
def boundaryAfter : List Char → Bool
  | [] => true
  | c :: _ => !isWordChar c

/-- Leftmost match of `re.search(r"\b([A-Z]{3}\d{3})\b", ...)` (line 39).
`prevIsWord` records whether the character before the current position is a
word character (the `\b` before the match). -/
def findCodeAux (prevIsWord : Bool) : List Char → Option (List Char)
  | [] => none
  | c :: rest =>
    if !prevIsWord then
      match codeAt (c :: rest) with
      | some (code, after) =>
        if boundaryAfter after then some code else findCodeAux (isWordChar c) rest
      | none => findCodeAux (isWordChar c) rest
    else findCodeAux (isWordChar c) rest

/-- Search the whole string for the course-code pattern. -/
def findCode (s : String) : Option (List Char) := findCodeAux false s.toList

/-- Numeric value of a digit run, `int(m.group(1))`. -/
def digitsToNat (ds : List Char) : Nat :=
  ds.foldl (fun acc c => acc * 10 + (c.toNat - 48)) 0

/-- First maximal digit run of the list, if any. -/
def extractIntAux : List Char → Option Nat
  | [] => none
  | c :: rest =>
    if isDigit09 c then some (digitsToNat (c :: rest.takeWhile isDigit09))
    else extractIntAux rest

/-- Model of `extract_int` (lines 27-29): `re.search(r"(\d+)", s)` finds the
first maximal digit substring; `int` converts it. -/
def extract_int (s : String) : Option Nat := extractIntAux s.toList

/-- ASCII whitespace, for Python `str.strip()`. -/
def isSpaceChar (c : Char) : Bool :=
  c == ' ' || c == '\t' || c == '\n' || c == '\r' || c == '\x0b' || c == '\x0c'

/-- Python `s.strip()`: drop whitespace at both ends. -/
def pyStrip (s : String) : String :=
  String.mk (((s.toList.dropWhile isSpaceChar).reverse.dropWhile isSpaceChar).reverse)

/-- The one exception the extractor can raise: `tds[1]` out of range
(Python `IndexError`, line 38). -/
inductive ParseErr where
  | indexError
deriving Repr, DecidableEq

/-- One iteration of the row loop of `parse_page` (lines 34-44):
skip rows with no cells; skip rows that are not `valign="top"` and have
fewer than 7 cells; read the second cell (this raises when absent); find the
course code in its stripped text, else skip; extract the seat integer from
the last cell's text, else skip; store `{"open": seats > 0, "seats": seats}`. -/
def parseCells (out : Dict LRec) (valign : Option String) :
    List String → Except ParseErr (Dict LRec)
  | [] => Except.ok out
  | c0 :: rest =>
    if valign ≠ some "top" ∧ (c0 :: rest).length < 7 then Except.ok out
    else
      match (c0 :: rest)[1]? with
      | none => Except.error ParseErr.indexError
      | some c1 =>
        match findCode (pyStrip c1) with
        | none => Except.ok out
        | some cs =>
          match extract_int ((c0 :: rest).getLast (by simp)) with
          | none => Except.ok out
          | some seats =>
            Except.ok (dictSet out (String.mk (cs.map Char.toUpper))
              (LRec.mk (decide (seats > 0)) seats))

/-- The row body applied to the row's attribute and cells; `code_text` is the
stripped second-cell text, the stored code is `m.group(1).upper()`. -/
def parseRow (out : Dict LRec) (row : Row) : Except ParseErr (Dict LRec) :=
  parseCells out row.valign row.cells

/-- The row loop of `parse_page`, threading the accumulator and propagating
the one possible exception. -/
def parseRows : List Row → Dict LRec → Except ParseErr (Dict LRec)
  | [], out => Except.ok out
  | row :: rows, out =>
    match parseRow out row with
    | Except.error e => Except.error e
    | Except.ok out' => parseRows rows out'

/-- Model of `parse_page` (lines 31-45) over the soup-parsed rows. -/
def parse_page (rows : List Row) : Except ParseErr (Dict LRec) := parseRows rows []

/-- Errors that abort the whole invocation: an HTTP/transport failure
(`requests.get` / `raise_for_status`, lines 50-51) or the extractor's
exception propagating out of `parse_page`. -/
inductive RunError where
  | fetchError (msg : String)
  | parseError (e : ParseErr)
deriving Repr, DecidableEq

/-- The loop of `fetch_all` (lines 47-54): fetch each URL in order, parse it,
merge into the accumulator; any failure aborts immediately. -/
def fetchLoop (fetch : String → Except String (List Row)) :
    List String → Dict LRec → Except RunError (Dict LRec)
  | [], merged => Except.ok merged
  | url :: urls, merged =>
    match fetch url with
    | Except.error e => Except.error (RunError.fetchError e)
    | Except.ok page =>
      match parse_page page with
      | Except.error e => Except.error (RunError.parseError e)
      | Except.ok d => fetchLoop fetch urls (dictUpdate merged d)

/-- Model of `fetch_all` (lines 47-54); the fetch capability is injected. -/
def fetch_all (fetch : String → Except String (List Row)) (urls : List String) :
    Except RunError (Dict LRec) :=
  fetchLoop fetch urls []

/-- Outcome of reading `state.json` (lines 68-76): missing file, corrupt
content (`json.loads` raises, or no `"courses"` key — both yield `{}`), or a
parsed course mapping. -/
inductive LoadOutcome where
  | missing
  | corrupt
  | parsed (courses : Dict BRec)

/-- The course mapping the run starts from (`prev_courses`, line 76). -/
def loadCourses : LoadOutcome → Dict BRec
  | .missing => []
  | .corrupt => []
  | .parsed cs => cs

/-- Writing a latest record into the baseline replaces the whole record, so
the stored `"_gone_notified"` key (if any) is gone: lines 82, 95, 102, 112. -/
def toBaselineRec (i : LRec) : BRec := BRec.mk i.isOpen i.seats false

/-- Observable outcome of one invocation of `main` after a successful fetch:
the final course mapping, the notifications in emission order, whether
`state.json` was written, the `changed` flag, and whether the run printed
"No changes.". -/
structure RunResult where
  courses : Dict BRec
  events : List Event
  persisted : Bool
  changed : Bool
  reportedNoChanges : Bool
deriving Repr, DecidableEq

/-- The first-run branch (lines 81-89): persist `latest` as the baseline
unconditionally; notify one initial event per entry iff `INITIAL_NOTIFY`. -/
def firstRunResult (ini : Bool) (latest : Dict LRec) : RunResult :=
  { courses := latest.map (fun ci => (ci.1, toBaselineRec ci.2)),
    events := if ini then latest.map (fun ci => Event.initial ci.1 ci.2.isOpen ci.2.seats) else [],
    persisted := true,
    changed := false,
    reportedNoChanges := false }

/-- State threaded through the diff loops: `(prev_courses, changed, emitted
notifications)`. -/
abbrev StSt : Type := Dict BRec × Bool × List Event

/-- One iteration of the comparison loop (lines 92-114) for `(code, info)`:
absent from baseline → appeared; `open` differs → open-state change (the
message depends on the new `open`, with previous→new seats); `seats` differs
→ seat change; otherwise nothing. -/
def diffOne (st : StSt) (ci : String × LRec) : StSt :=
  match dictGet st.1 ci.1 with
  | none =>
    (dictSet st.1 ci.1 (toBaselineRec ci.2), true,
      st.2.2 ++ [Event.appeared ci.1 ci.2.isOpen ci.2.seats])
  | some p =>
    if p.isOpen != ci.2.isOpen then
      (dictSet st.1 ci.1 (toBaselineRec ci.2), true,
        st.2.2 ++ [Event.openChanged ci.1 ci.2.isOpen p.seats ci.2.seats])
    else if p.seats != ci.2.seats then
      (dictSet st.1 ci.1 (toBaselineRec ci.2), true,
        st.2.2 ++ [Event.seatsChanged ci.1 p.seats ci.2.seats])
    else st

/-- The comparison loop over `latest.items()` (lines 92-114). -/
def steadyLoop : List (String × LRec) → StSt → StSt
  | [], st => st
  | ci :: rest, st => steadyLoop rest (diffOne st ci)

/-- One iteration of the disappearance loop (lines 117-122) for `code`:
if the code passes the filter, is absent from `latest`, and its record is not
yet `_gone_notified`, set the flag and notify once. -/
def goneStep (cc cp : List String) (latest : Dict LRec) (st : StSt) (code : String) : StSt :=
  if passes_filter cc cp code && (dictGet latest code).isNone then
    match dictGet st.1 code with
    | some r =>
      if r.goneNotified then st
      else
        (dictSet st.1 code (BRec.mk r.isOpen r.seats true), true,
          st.2.2 ++ [Event.disappeared code])
    | none => st
  else st

/-- The disappearance loop over `list(prev_courses.keys())` (lines 117-122). -/
def goneLoop (cc cp : List String) (latest : Dict LRec) :
    List String → StSt → StSt
  | [], st => st
  | code :: codes, st => goneLoop cc cp latest codes (goneStep cc cp latest st code)

/-- The steady-state branch of `main` (lines 92-128): the comparison loop,
then the disappearance scan over the keys present at that point, then persist
iff `changed` (else print "No changes."). -/
def steadyResult (cc cp : List String) (prev : Dict BRec) (latest : Dict LRec) : RunResult :=
  let st1 := steadyLoop latest (prev, false, [])
  let st2 := goneLoop cc cp latest (st1.1.map Prod.fst) st1
  { courses := st2.1,
    events := st2.2.2,
    persisted := st2.2.1,
    changed := st2.2.1,
    reportedNoChanges := !st2.2.1 }

/-- The filter comprehension of line 66. -/
def filterLatest (cc cp : List String) (latest : Dict LRec) : Dict LRec :=
  latest.filter (fun ci => passes_filter cc cp ci.1)

/-- Model of `main` after a successful fetch (lines 66-128): filter the
latest snapshot, then branch on `first_run = (len(prev_courses) == 0)`
(line 78). -/
def runMonitor (cc cp : List String) (ini : Bool) (prevCourses : Dict BRec)
    (latest0 : Dict LRec) : RunResult :=
  let latest := filterLatest cc cp latest0
  if prevCourses.length = 0 then firstRunResult ini latest
  else steadyResult cc cp prevCourses latest

/-- Model of `main` (lines 64-128) including the fetch: a fetch or parse
failure aborts the invocation before any diffing, notification or
persistence. -/
def mainRun (fetch : String → Except String (List Row)) (urls : List String)
    (cc cp : List String) (ini : Bool) (load : LoadOutcome) : Except RunError RunResult :=
  match fetch_all fetch urls with
  | Except.error e => Except.error e
  | Except.ok latest0 => Except.ok (runMonitor cc cp ini (loadCourses load) latest0)

/-- Modelled from the spec (section 4.4, steady-state classification): the
event, if any, that the spec's priority order assigns to one latest entry
against the baseline.  Used to compare the comparison loop of the code with
the spec's words. -/
def specEvent (prev : Dict BRec) (code : String) (info : LRec) : Option Event :=
  match dictGet prev code with
  | none => some (Event.appeared code info.isOpen info.seats)
  | some p =>
    if p.isOpen ≠ info.isOpen then
      some (Event.openChanged code info.isOpen p.seats info.seats)
    else if p.seats ≠ info.seats then
      some (Event.seatsChanged code p.seats info.seats)
    else none

/-- The disappearance event, if any, that one scanned baseline key produces
against a fixed course mapping `d` (the per-key reading of lines 117-122). -/
def goneSpecEvent (cc cp : List String) (latest : Dict LRec) (d : Dict BRec)
    (code : String) : Option Event :=
  if passes_filter cc cp code && (dictGet latest code).isNone then
    match dictGet d code with
    | some r => if r.goneNotified then none else some (Event.disappeared code)
    | none => none
  else none

/- Basic dictionary lemmas. -/

lemma dictGet_dictSet_self {α : Type} (d : Dict α) (k : String) (v : α) :
    dictGet (dictSet d k v) k = some v := by
  induction d with
  | nil => simp [dictGet, dictSet]
  | cons kv rest ih =>
    by_cases h : kv.1 = k
    · simp [dictSet, dictGet, h]
    · simp [dictSet, dictGet, h, ih]

lemma dictGet_dictSet_ne {α : Type} (d : Dict α) (k k' : String) (v : α) (h : k' ≠ k) :
    dictGet (dictSet d k v) k' = dictGet d k' := by
  induction d with
  | nil => simp [dictGet, dictSet, Ne.symm h]
  | cons kv rest ih =>
    by_cases hk : kv.1 = k
    · subst hk
      simp [dictSet, dictGet, Ne.symm h]
    · rw [show dictSet (kv :: rest) k v = kv :: dictSet rest k v from by simp [dictSet, hk]]
      by_cases hk' : kv.1 = k' <;> simp [dictGet, hk', ih]

lemma mem_dictSet {α : Type} (d : Dict α) (k : String) (v : α) (x : String × α)
    (hx : x ∈ dictSet d k v) : x ∈ d ∨ x = (k, v) := by
  induction d with
  | nil => simp [dictSet] at hx; simp [hx]
  | cons kv rest ih =>
    by_cases h : kv.1 = k
    · simp [dictSet, h] at hx
      rcases hx with hx | hx
      · right; simp [hx]
      · left; simp [hx]
    · simp [dictSet, h] at hx
      rcases hx with hx | hx
      · left; simp [hx]
      · rcases ih hx with h' | h'
        · left; simp [h']
        · right; exact h'

lemma mem_keys_dictSet_iff {α : Type} (d : Dict α) (k c : String) (v : α) :
    c ∈ (dictSet d k v).map Prod.fst ↔ c ∈ d.map Prod.fst ∨ c = k := by
  induction d with
  | nil => simp [dictSet]
  | cons kv rest ih =>
    by_cases h : kv.1 = k
    · subst h
      by_cases hc : c = kv.1 <;> simp [dictSet, hc]
    · simp [dictSet, h, ih]; tauto

lemma keys_dictSet_of_mem {α : Type} (d : Dict α) (k : String) (v : α)
    (h : (dictGet d k).isSome) : (dictSet d k v).map Prod.fst = d.map Prod.fst := by
  induction d with
  | nil => simp [dictGet] at h
  | cons kv rest ih =>
    by_cases hk : kv.1 = k
    · simp [dictSet, hk]
    · simp [dictGet, hk] at h
      simp [dictSet, hk, ih h]

lemma dictGet_isSome_iff_mem_keys {α : Type} (d : Dict α) (k : String) :
    (dictGet d k).isSome ↔ k ∈ d.map Prod.fst := by
  induction d with
  | nil => simp [dictGet]
  | cons kv rest ih =>
    by_cases h : kv.1 = k
    · simp [dictGet, h]
    · rw [List.map_cons, List.mem_cons]
      simp [dictGet, h, ih, Ne.symm h]

lemma dictGet_eq_none_iff {α : Type} (d : Dict α) (k : String) :
    dictGet d k = none ↔ k ∉ d.map Prod.fst := by
  rw [← dictGet_isSome_iff_mem_keys]
  cases dictGet d k <;> simp

lemma nodup_keys_dictSet {α : Type} (d : Dict α) (k : String) (v : α)
    (h : (d.map Prod.fst).Nodup) : ((dictSet d k v).map Prod.fst).Nodup := by
  induction d with
  | nil => simp [dictSet]
  | cons kv rest ih =>
    rw [List.map_cons, List.nodup_cons] at h
    by_cases hk : kv.1 = k
    · subst hk
      rw [show dictSet (kv :: rest) kv.1 v = (kv.1, v) :: rest from by simp [dictSet]]
      rw [List.map_cons, List.nodup_cons]
      exact h
    · rw [show dictSet (kv :: rest) k v = kv :: dictSet rest k v from by simp [dictSet, hk]]
      rw [List.map_cons, List.nodup_cons]
      refine ⟨?_, ih h.2⟩
      intro hmem
      rcases (mem_keys_dictSet_iff rest k kv.1 v).mp hmem with h' | h'
      · exact h.1 h'
      · exact hk h'

lemma dictSet_ne_nil {α : Type} (d : Dict α) (k : String) (v : α) : dictSet d k v ≠ [] := by
  cases d with
  | nil => simp [dictSet]
  | cons kv rest => by_cases h : kv.1 = k <;> simp [dictSet, h]

lemma dictGet_of_mem_nodup {α : Type} (d : Dict α) (x : String × α)
    (hnd : (d.map Prod.fst).Nodup) (hx : x ∈ d) : dictGet d x.1 = some x.2 := by
  induction d with
  | nil => simp at hx
  | cons kv rest ih =>
    rw [List.map_cons, List.nodup_cons] at hnd
    rcases List.mem_cons.mp hx with rfl | hx'
    · simp [dictGet]
    · have hne : kv.1 ≠ x.1 := by
        intro he
        exact hnd.1 (by rw [he]; exact List.mem_map_of_mem Prod.fst hx')
      simp [dictGet, hne, ih hnd.2 hx']

lemma dictGet_filter_none {α : Type} (d : Dict α) (p : String × α → Bool) (k : String)
    (h : dictGet d k = none) : dictGet (d.filter p) k = none := by
  rw [dictGet_eq_none_iff] at h ⊢
  intro hmem
  apply h
  rcases List.mem_map.mp hmem with ⟨x, hx, rfl⟩
  exact List.mem_map_of_mem Prod.fst (List.mem_of_mem_filter hx)

/-- C1: the spec requires every malformed row to be skipped silently and
`parse_page` never to raise, in particular on a `valign="top"` row with a
single cell; the code instead raises `IndexError` there, reading `tds[1]`
(line 38).  This theorem evaluates the extractor at that failing input. -/
theorem parse_page_raises_on_one_cell_top_row :
    parse_page [Row.mk (some "top") ["x"]] = Except.error ParseErr.indexError := by
  rfl

/-- C7: the filter gives absolute priority to the exact-code list: when it is
non-empty, membership in it decides, and the prefix list is ignored entirely;
when it is empty and the prefix list is non-empty, a matching prefix decides;
when both are empty every code passes. -/
theorem passes_filter_priority (cc cp cp' : List String) (code : String) :
    (cc ≠ [] →
      (passes_filter cc cp code = true ↔ code ∈ cc)
      ∧ passes_filter cc cp code = passes_filter cc cp' code)
    ∧ (cc = [] → cp ≠ [] →
      (passes_filter cc cp code = true ↔ ∃ p ∈ cp, code.startsWith p = true))
    ∧ (cc = [] → cp = [] → passes_filter cc cp code = true) := by
  refine ⟨fun h => ⟨?_, ?_⟩, fun h h' => ?_, fun h h' => ?_⟩ <;>
    simp [passes_filter, *, List.any_eq_true]

/-- Witness for `passes_filter_priority` at a configuration with both lists
non-empty. -/
theorem passes_filter_priority_witness :
    (passes_filter ["ABC123"] ["XYZ"] "ABC123" = true ↔ "ABC123" ∈ ["ABC123"])
    ∧ passes_filter ["ABC123"] ["XYZ"] "ABC123"
        = passes_filter ["ABC123"] ["QQQ"] "ABC123" :=
  (passes_filter_priority ["ABC123"] ["XYZ"] ["QQQ"] "ABC123").1 (by decide)

/-- C5: on a first run (empty loaded course mapping) no diff is computed: the
baseline becomes the full filtered latest snapshot, the state is persisted
unconditionally, and one initial event per entry is emitted iff the
initial-notify option is enabled. -/
theorem first_run_behavior (cc cp : List String) (ini : Bool) (latest0 : Dict LRec) :
    (runMonitor cc cp ini [] latest0).persisted = true
    ∧ (runMonitor cc cp ini [] latest0).courses
        = (filterLatest cc cp latest0).map (fun ci => (ci.1, toBaselineRec ci.2))
    ∧ (runMonitor cc cp ini [] latest0).events
        = (if ini then
            (filterLatest cc cp latest0).map (fun ci => Event.initial ci.1 ci.2.isOpen ci.2.seats)
          else []) := by
  refine ⟨?_, ?_, ?_⟩ <;> simp [runMonitor, firstRunResult]

/-- C10: first-run detection is keyed solely on emptiness of the loaded
course mapping; a first run over an empty filtered snapshot persists an empty
baseline (so the next run is again a first run), this repeats until a run
sees a non-empty filtered snapshot, and a missing or corrupt state file
always yields the empty mapping and hence the first-run branch. -/
theorem first_run_detection (cc cp : List String) (ini : Bool) (latest0 : Dict LRec) :
    (∀ prev : Dict BRec, prev = [] →
      runMonitor cc cp ini prev latest0 = firstRunResult ini (filterLatest cc cp latest0))
    ∧ (∀ prev : Dict BRec, prev ≠ [] →
      runMonitor cc cp ini prev latest0 = steadyResult cc cp prev (filterLatest cc cp latest0))
    ∧ (loadCourses LoadOutcome.missing = [] ∧ loadCourses LoadOutcome.corrupt = [])
    ∧ (filterLatest cc cp latest0 = [] →
      (runMonitor cc cp ini [] latest0).courses = []
        ∧ (runMonitor cc cp ini [] latest0).persisted = true)
    ∧ (filterLatest cc cp latest0 ≠ [] → (runMonitor cc cp ini [] latest0).courses ≠ []) := by
  refine ⟨fun prev h => ?_, fun prev h => ?_, ⟨rfl, rfl⟩, fun h => ?_, fun h => ?_⟩
  · subst h; simp [runMonitor]
  · simp [runMonitor, List.length_eq_zero, h]
  · simp [runMonitor, firstRunResult, h]
  · simp [runMonitor, firstRunResult, h]

/-- Witness for `first_run_detection`: an empty baseline takes the first-run
branch, and with an empty snapshot it persists an empty baseline again. -/
theorem first_run_detection_witness :
    runMonitor [] [] false [] [] = firstRunResult false (filterLatest [] [] [])
    ∧ (runMonitor [] [] false [] []).courses = [] :=
  ⟨(first_run_detection [] [] false []).1 [] rfl,
   ((first_run_detection [] [] false []).2.2.2.1 rfl).1⟩

lemma fetchLoop_isError (fetch : String → Except String (List Row)) :
    ∀ (urls : List String) (acc : Dict LRec),
      (∃ u ∈ urls, ∃ e, fetch u = Except.error e) →
      ∃ err, fetchLoop fetch urls acc = Except.error err := by
  intro urls
  induction urls with
  | nil => intro acc h; simp at h
  | cons u rest ih =>
    intro acc h
    rcases h with ⟨v, hv, e, he⟩
    rcases List.mem_cons.mp hv with rfl | hvrest
    · exact ⟨RunError.fetchError e, by simp [fetchLoop, he]⟩
    · cases hf : fetch u with
      | error e' => exact ⟨RunError.fetchError e', by simp [fetchLoop, hf]⟩
      | ok page =>
        cases hp : parse_page page with
        | error pe => exact ⟨RunError.parseError pe, by simp [fetchLoop, hf, hp]⟩
        | ok d => simpa [fetchLoop, hf, hp] using ih (dictUpdate acc d) ⟨v, hvrest, e, he⟩

/-- C8: if fetching any configured page source fails, the whole invocation
aborts with an error: no notification is emitted, no state is persisted, and
no partial merge of the pages fetched so far is ever diffed (the result
carries no `RunResult` at all). -/
theorem fetch_failure_aborts (fetch : String → Except String (List Row))
    (urls cc cp : List String) (ini : Bool) (load : LoadOutcome)
    (h : ∃ u ∈ urls, ∃ e, fetch u = Except.error e) :
    ∃ err, mainRun fetch urls cc cp ini load = Except.error err := by
  obtain ⟨err, herr⟩ := fetchLoop_isError fetch urls [] h
  exact ⟨err, by simp [mainRun, fetch_all, herr]⟩

/-- Witness for `fetch_failure_aborts` with one URL whose fetch fails. -/
theorem fetch_failure_aborts_witness :
    ∃ err, mainRun (fun _ => Except.error "boom") ["u"] [] [] false LoadOutcome.missing
      = Except.error err :=
  fetch_failure_aborts _ _ _ _ _ _ ⟨"u", by simp, "boom", rfl⟩

/- Lemmas about the comparison loop (lines 92-114). -/

lemma specEvent_congr (d d' : Dict BRec) (c : String) (i : LRec)
    (h : dictGet d c = dictGet d' c) : specEvent d c i = specEvent d' c i := by
  unfold specEvent
  rw [h]

lemma diffOne_dict (st : StSt) (ci : String × LRec) :
    (diffOne st ci).1
      = if (specEvent st.1 ci.1 ci.2).isSome then dictSet st.1 ci.1 (toBaselineRec ci.2)
        else st.1 := by
  unfold diffOne specEvent
  cases h : dictGet st.1 ci.1 with
  | none => simp
  | some p =>
    by_cases h1 : p.isOpen = ci.2.isOpen
    · by_cases h2 : p.seats = ci.2.seats <;> simp [h1, h2]
    · simp [h1]

lemma diffOne_events (st : StSt) (ci : String × LRec) :
    (diffOne st ci).2.2 = st.2.2 ++ (specEvent st.1 ci.1 ci.2).toList := by
  unfold diffOne specEvent
  cases h : dictGet st.1 ci.1 with
  | none => simp
  | some p =>
    by_cases h1 : p.isOpen = ci.2.isOpen
    · by_cases h2 : p.seats = ci.2.seats <;> simp [h1, h2]
    · simp [h1]

lemma diffOne_changed (st : StSt) (ci : String × LRec) :
    (diffOne st ci).2.1 = (st.2.1 || (specEvent st.1 ci.1 ci.2).isSome) := by
  unfold diffOne specEvent
  cases h : dictGet st.1 ci.1 with
  | none => simp
  | some p =>
    by_cases h1 : p.isOpen = ci.2.isOpen
    · by_cases h2 : p.seats = ci.2.seats <;> simp [h1, h2]
    · simp [h1]

lemma diffOne_noop (st : StSt) (ci : String × LRec)
    (h : specEvent st.1 ci.1 ci.2 = none) : diffOne st ci = st := by
  unfold diffOne
  unfold specEvent at h
  cases hg : dictGet st.1 ci.1 with
  | none => rw [hg] at h; simp at h
  | some p =>
    rw [hg] at h
    by_cases h1 : p.isOpen = ci.2.isOpen
    · by_cases h2 : p.seats = ci.2.seats
      · simp [h1, h2]
      · simp [h1, h2] at h
    · simp [h1] at h

lemma diffOne_dict_ne (st : StSt) (ci : String × LRec) (c : String) (h : c ≠ ci.1) :
    dictGet (diffOne st ci).1 c = dictGet st.1 c := by
  rw [diffOne_dict]
  by_cases hs : (specEvent st.1 ci.1 ci.2).isSome = true
  · simp [hs, dictGet_dictSet_ne _ _ _ _ h]
  · simp [hs]

lemma steadyLoop_dict_notmem : ∀ (l : List (String × LRec)) (st : StSt) (c : String),
    c ∉ l.map Prod.fst → dictGet (steadyLoop l st).1 c = dictGet st.1 c := by
  intro l
  induction l with
  | nil => intro st c _; rfl
  | cons ci rest ih =>
    intro st c hc
    rw [List.map_cons, List.mem_cons] at hc
    push_neg at hc
    rw [steadyLoop, ih _ _ hc.2, diffOne_dict_ne _ _ _ hc.1]

lemma steadyLoop_events : ∀ (l : List (String × LRec)) (st : StSt),
    (l.map Prod.fst).Nodup →
    (steadyLoop l st).2.2 = st.2.2 ++ l.filterMap (fun ci => specEvent st.1 ci.1 ci.2) := by
  intro l
  induction l with
  | nil => intro st _; simp [steadyLoop]
  | cons ci rest ih =>
    intro st hnd
    rw [List.map_cons, List.nodup_cons] at hnd
    have hcongr : rest.filterMap (fun cj => specEvent (diffOne st ci).1 cj.1 cj.2)
        = rest.filterMap (fun cj => specEvent st.1 cj.1 cj.2) := by
      apply List.filterMap_congr
      intro cj hcj
      exact specEvent_congr _ _ _ _
        (diffOne_dict_ne st ci cj.1
          (fun he => hnd.1 (he ▸ List.mem_map_of_mem Prod.fst hcj)))
    rw [steadyLoop, ih _ hnd.2, hcongr, diffOne_events]
    cases hs : specEvent st.1 ci.1 ci.2 <;> simp [hs, List.filterMap_cons]

lemma steadyLoop_dict_mem : ∀ (l : List (String × LRec)) (st : StSt) (ci : String × LRec),
    (l.map Prod.fst).Nodup → ci ∈ l →
    dictGet (steadyLoop l st).1 ci.1
      = if (specEvent st.1 ci.1 ci.2).isSome then some (toBaselineRec ci.2)
        else dictGet st.1 ci.1 := by
  intro l
  induction l with
  | nil => intro st ci _ h; simp at h
  | cons cj rest ih =>
    intro st ci hnd hci
    rw [List.map_cons, List.nodup_cons] at hnd
    rcases List.mem_cons.mp hci with rfl | hci'
    · rw [steadyLoop, steadyLoop_dict_notmem _ _ _ hnd.1, diffOne_dict]
      by_cases hs : (specEvent st.1 ci.1 ci.2).isSome = true
      · simp [hs, dictGet_dictSet_self]
      · simp [hs]
    · have hne : ci.1 ≠ cj.1 :=
        fun he => hnd.1 (he ▸ List.mem_map_of_mem Prod.fst hci')
      have hdg := diffOne_dict_ne st cj ci.1 hne
      rw [steadyLoop, ih _ _ hnd.2 hci', specEvent_congr _ _ _ ci.2 hdg, hdg]

lemma steadyLoop_changed : ∀ (l : List (String × LRec)) (st : StSt),
    (l.map Prod.fst).Nodup →
    (steadyLoop l st).2.1
      = (st.2.1 || !(l.filterMap (fun ci => specEvent st.1 ci.1 ci.2)).isEmpty) := by
  intro l
  induction l with
  | nil => intro st _; simp [steadyLoop]
  | cons ci rest ih =>
    intro st hnd
    rw [List.map_cons, List.nodup_cons] at hnd
    have hcongr : rest.filterMap (fun cj => specEvent (diffOne st ci).1 cj.1 cj.2)
        = rest.filterMap (fun cj => specEvent st.1 cj.1 cj.2) := by
      apply List.filterMap_congr
      intro cj hcj
      exact specEvent_congr _ _ _ _
        (diffOne_dict_ne st ci cj.1
          (fun he => hnd.1 (he ▸ List.mem_map_of_mem Prod.fst hcj)))
    rw [steadyLoop, ih _ hnd.2, hcongr, diffOne_changed]
    cases hs : specEvent st.1 ci.1 ci.2 <;>
      simp [hs, List.filterMap_cons, Bool.or_assoc]

lemma steadyLoop_noop : ∀ (l : List (String × LRec)) (st : StSt),
    (∀ ci ∈ l, specEvent st.1 ci.1 ci.2 = none) → steadyLoop l st = st := by
  intro l
  induction l with
  | nil => intro st _; rfl
  | cons ci rest ih =>
    intro st h
    rw [steadyLoop, diffOne_noop st ci (h ci (List.mem_cons_self ci rest))]
    exact ih st (fun cj hcj => h cj (List.mem_cons_of_mem ci hcj))

lemma steadyLoop_mem_keys : ∀ (l : List (String × LRec)) (st : StSt) (c : String),
    c ∈ st.1.map Prod.fst → c ∈ (steadyLoop l st).1.map Prod.fst := by
  intro l
  induction l with
  | nil => intro st c h; exact h
  | cons ci rest ih =>
    intro st c h
    rw [steadyLoop]
    apply ih
    rw [diffOne_dict]
    by_cases hs : (specEvent st.1 ci.1 ci.2).isSome = true
    · simp only [hs, if_pos]
      exact (mem_keys_dictSet_iff _ _ _ _).mpr (Or.inl h)
    · simp [hs, h]

lemma steadyLoop_nodup : ∀ (l : List (String × LRec)) (st : StSt),
    (st.1.map Prod.fst).Nodup → ((steadyLoop l st).1.map Prod.fst).Nodup := by
  intro l
  induction l with
  | nil => intro st h; exact h
  | cons ci rest ih =>
    intro st h
    rw [steadyLoop]
    apply ih
    rw [diffOne_dict]
    by_cases hs : (specEvent st.1 ci.1 ci.2).isSome = true
    · simp only [hs, if_pos]
      exact nodup_keys_dictSet _ _ _ h
    · simp [hs, h]

lemma steadyLoop_ne_nil : ∀ (l : List (String × LRec)) (st : StSt),
    st.1 ≠ [] → (steadyLoop l st).1 ≠ [] := by
  intro l
  induction l with
  | nil => intro st h; exact h
  | cons ci rest ih =>
    intro st h
    rw [steadyLoop]
    apply ih
    rw [diffOne_dict]
    by_cases hs : (specEvent st.1 ci.1 ci.2).isSome = true
    · simp only [hs, if_pos]
      exact dictSet_ne_nil _ _ _
    · simp [hs, h]

lemma specEvent_ne_disappeared (d : Dict BRec) (c c' : String) (i : LRec) :
    specEvent d c i ≠ some (Event.disappeared c') := by
  unfold specEvent
  cases dictGet d c with
  | none => simp
  | some p =>
    by_cases h1 : p.isOpen = i.isOpen
    · by_cases h2 : p.seats = i.seats <;> simp [h1, h2]
    · simp [h1]

lemma specEvent_none_iff (d : Dict BRec) (c : String) (i : LRec) :
    specEvent d c i = none
      ↔ ∃ p, dictGet d c = some p ∧ p.isOpen = i.isOpen ∧ p.seats = i.seats := by
  unfold specEvent
  cases dictGet d c with
  | none => simp
  | some p =>
    by_cases h1 : p.isOpen = i.isOpen
    · by_cases h2 : p.seats = i.seats <;> simp [h1, h2]
    · simp [h1]

/- Lemmas about the disappearance loop (lines 117-122). -/

lemma goneSpecEvent_congr (cc cp : List String) (latest : Dict LRec) (d d' : Dict BRec)
    (c : String) (h : dictGet d c = dictGet d' c) :
    goneSpecEvent cc cp latest d c = goneSpecEvent cc cp latest d' c := by
  unfold goneSpecEvent
  rw [h]

lemma goneSpecEvent_shape (cc cp : List String) (latest : Dict LRec) (d : Dict BRec)
    (c : String) :
    goneSpecEvent cc cp latest d c = none
      ∨ goneSpecEvent cc cp latest d c = some (Event.disappeared c) := by
  unfold goneSpecEvent
  by_cases hc : (passes_filter cc cp c && (dictGet latest c).isNone) = true
  · rw [if_pos hc]
    cases dictGet d c with
    | none => simp
    | some r => by_cases hr : r.goneNotified = true <;> simp [hr]
  · rw [if_neg hc]
    simp

lemma goneStep_events (cc cp : List String) (latest : Dict LRec) (st : StSt) (c : String) :
    (goneStep cc cp latest st c).2.2
      = st.2.2 ++ (goneSpecEvent cc cp latest st.1 c).toList := by
  unfold goneStep goneSpecEvent
  by_cases hc : (passes_filter cc cp c && (dictGet latest c).isNone) = true
  · rw [if_pos hc, if_pos hc]
    cases dictGet st.1 c with
    | none => simp
    | some r => by_cases hr : r.goneNotified = true <;> simp [hr]
  · rw [if_neg hc, if_neg hc]
    simp

lemma goneStep_changed (cc cp : List String) (latest : Dict LRec) (st : StSt) (c : String) :
    (goneStep cc cp latest st c).2.1
      = (st.2.1 || (goneSpecEvent cc cp latest st.1 c).isSome) := by
  unfold goneStep goneSpecEvent
  by_cases hc : (passes_filter cc cp c && (dictGet latest c).isNone) = true
  · rw [if_pos hc, if_pos hc]
    cases dictGet st.1 c with
    | none => simp
    | some r => by_cases hr : r.goneNotified = true <;> simp [hr]
  · rw [if_neg hc, if_neg hc]
    simp

lemma goneStep_dict_ne (cc cp : List String) (latest : Dict LRec) (st : StSt)
    (c c' : String) (h : c' ≠ c) :
    dictGet (goneStep cc cp latest st c).1 c' = dictGet st.1 c' := by
  unfold goneStep
  by_cases hc : (passes_filter cc cp c && (dictGet latest c).isNone) = true
  · rw [if_pos hc]
    cases dictGet st.1 c with
    | none => rfl
    | some r =>
      by_cases hr : r.goneNotified = true
      · simp [hr]
      · simp [hr, dictGet_dictSet_ne _ _ _ _ h]
  · rw [if_neg hc]

lemma goneStep_noop (cc cp : List String) (latest : Dict LRec) (st : StSt) (c : String)
    (h : goneSpecEvent cc cp latest st.1 c = none) : goneStep cc cp latest st c = st := by
  unfold goneStep
  unfold goneSpecEvent at h
  by_cases hc : (passes_filter cc cp c && (dictGet latest c).isNone) = true
  · rw [if_pos hc] at h
    rw [if_pos hc]
    cases hg : dictGet st.1 c with
    | none => rfl
    | some r =>
      rw [hg] at h
      by_cases hr : r.goneNotified = true
      · simp [hr]
      · simp [hr] at h
  · rw [if_neg hc]

lemma goneStep_dict_self (cc cp : List String) (latest : Dict LRec) (st : StSt)
    (c : String) (r : BRec) (hr : dictGet st.1 c = some r)
    (hs : (goneSpecEvent cc cp latest st.1 c).isSome = true) :
    dictGet (goneStep cc cp latest st c).1 c = some (BRec.mk r.isOpen r.seats true) := by
  unfold goneStep
  unfold goneSpecEvent at hs
  by_cases hc : (passes_filter cc cp c && (dictGet latest c).isNone) = true
  · rw [if_pos hc] at hs
    rw [if_pos hc, hr]
    rw [hr] at hs
    by_cases hg : r.goneNotified = true
    · simp [hg] at hs
    · simp [hg, dictGet_dictSet_self]
  · rw [if_neg hc] at hs
    simp at hs

lemma goneStep_keys (cc cp : List String) (latest : Dict LRec) (st : StSt) (c : String) :
    (goneStep cc cp latest st c).1.map Prod.fst = st.1.map Prod.fst := by
  unfold goneStep
  by_cases hc : (passes_filter cc cp c && (dictGet latest c).isNone) = true
  · rw [if_pos hc]
    cases hg : dictGet st.1 c with
    | none => rfl
    | some r =>
      by_cases hr : r.goneNotified = true
      · simp [hr]
      · simp only [hr]
        rw [if_neg (by simp)]
        exact keys_dictSet_of_mem _ _ _ (by simp [hg])
  · rw [if_neg hc]

lemma goneLoop_keys (cc cp : List String) (latest : Dict LRec) :
    ∀ (keys : List String) (st : StSt),
    (goneLoop cc cp latest keys st).1.map Prod.fst = st.1.map Prod.fst := by
  intro keys
  induction keys with
  | nil => intro st; rfl
  | cons c rest ih =>
    intro st
    rw [goneLoop, ih, goneStep_keys]

lemma goneLoop_dict_notmem (cc cp : List String) (latest : Dict LRec) :
    ∀ (keys : List String) (st : StSt) (c : String),
    c ∉ keys → dictGet (goneLoop cc cp latest keys st).1 c = dictGet st.1 c := by
  intro keys
  induction keys with
  | nil => intro st c _; rfl
  | cons k rest ih =>
    intro st c hc
    rw [List.mem_cons] at hc
    push_neg at hc
    rw [goneLoop, ih _ _ hc.2, goneStep_dict_ne _ _ _ _ _ _ hc.1]

lemma goneLoop_events (cc cp : List String) (latest : Dict LRec) :
    ∀ (keys : List String) (st : StSt), keys.Nodup →
    (goneLoop cc cp latest keys st).2.2
      = st.2.2 ++ keys.filterMap (goneSpecEvent cc cp latest st.1) := by
  intro keys
  induction keys with
  | nil => intro st _; simp [goneLoop]
  | cons k rest ih =>
    intro st hnd
    rw [List.nodup_cons] at hnd
    have hcongr : rest.filterMap (goneSpecEvent cc cp latest (goneStep cc cp latest st k).1)
        = rest.filterMap (goneSpecEvent cc cp latest st.1) := by
      apply List.filterMap_congr
      intro c hc
      exact goneSpecEvent_congr _ _ _ _ _ _
        (goneStep_dict_ne _ _ _ _ _ _ (fun he => hnd.1 (he ▸ hc)))
    rw [goneLoop, ih _ hnd.2, hcongr, goneStep_events]
    cases hs : goneSpecEvent cc cp latest st.1 k <;> simp [hs, List.filterMap_cons]

lemma goneLoop_changed (cc cp : List String) (latest : Dict LRec) :
    ∀ (keys : List String) (st : StSt), keys.Nodup →
    (goneLoop cc cp latest keys st).2.1
      = (st.2.1 || !(keys.filterMap (goneSpecEvent cc cp latest st.1)).isEmpty) := by
  intro keys
  induction keys with
  | nil => intro st _; simp [goneLoop]
  | cons k rest ih =>
    intro st hnd
    rw [List.nodup_cons] at hnd
    have hcongr : rest.filterMap (goneSpecEvent cc cp latest (goneStep cc cp latest st k).1)
        = rest.filterMap (goneSpecEvent cc cp latest st.1) := by
      apply List.filterMap_congr
      intro c hc
      exact goneSpecEvent_congr _ _ _ _ _ _
        (goneStep_dict_ne _ _ _ _ _ _ (fun he => hnd.1 (he ▸ hc)))
    rw [goneLoop, ih _ hnd.2, hcongr, goneStep_changed]
    cases hs : goneSpecEvent cc cp latest st.1 k <;>
      simp [hs, List.filterMap_cons, Bool.or_assoc]

lemma goneLoop_noop (cc cp : List String) (latest : Dict LRec) :
    ∀ (keys : List String) (st : StSt),
    (∀ c ∈ keys, goneSpecEvent cc cp latest st.1 c = none) →
    goneLoop cc cp latest keys st = st := by
  intro keys
  induction keys with
  | nil => intro st _; rfl
  | cons k rest ih =>
    intro st h
    rw [goneLoop, goneStep_noop _ _ _ _ _ (h k (List.mem_cons_self k rest))]
    exact ih st (fun c hc => h c (List.mem_cons_of_mem k hc))

lemma goneLoop_dict_of_none (cc cp : List String) (latest : Dict LRec) :
    ∀ (keys : List String) (st : StSt) (c : String), keys.Nodup →
    goneSpecEvent cc cp latest st.1 c = none →
    dictGet (goneLoop cc cp latest keys st).1 c = dictGet st.1 c := by
  intro keys
  induction keys with
  | nil => intro st c _ _; rfl
  | cons k rest ih =>
    intro st c hnd h
    rw [List.nodup_cons] at hnd
    by_cases hk : k = c
    · subst hk
      rw [goneLoop, goneStep_noop _ _ _ _ _ h]
      exact goneLoop_dict_notmem _ _ _ _ _ _ hnd.1
    · have hdg := goneStep_dict_ne cc cp latest st k c (Ne.symm hk)
      rw [goneLoop, ih _ _ hnd.2 (by rw [goneSpecEvent_congr _ _ _ _ _ _ hdg]; exact h), hdg]

lemma goneLoop_dict_of_some (cc cp : List String) (latest : Dict LRec) :
    ∀ (keys : List String) (st : StSt) (c : String) (r : BRec), keys.Nodup →
    c ∈ keys → dictGet st.1 c = some r →
    (goneSpecEvent cc cp latest st.1 c).isSome = true →
    dictGet (goneLoop cc cp latest keys st).1 c = some (BRec.mk r.isOpen r.seats true) := by
  intro keys
  induction keys with
  | nil => intro st c r _ h; simp at h
  | cons k rest ih =>
    intro st c r hnd hc hr hs
    rw [List.nodup_cons] at hnd
    rcases List.mem_cons.mp hc with rfl | hc'
    · rw [goneLoop, goneLoop_dict_notmem _ _ _ _ _ _ hnd.1]
      exact goneStep_dict_self _ _ _ _ _ _ hr hs
    · have hkc : k ≠ c := fun he => hnd.1 (he ▸ hc')
      have hdg := goneStep_dict_ne cc cp latest st k c (Ne.symm hkc)
      rw [goneLoop]
      exact ih _ _ _ hnd.2 hc' (by rw [hdg]; exact hr)
        (by rw [goneSpecEvent_congr _ _ _ _ _ _ hdg]; exact hs)

lemma goneLoop_ne_nil (cc cp : List String) (latest : Dict LRec)
    (keys : List String) (st : StSt) (h : st.1 ≠ []) :
    (goneLoop cc cp latest keys st).1 ≠ [] := by
  intro hnil
  have := goneLoop_keys cc cp latest keys st
  rw [hnil] at this
  exact h (List.map_eq_nil_iff.mp this.symm)

lemma specEvent_code (d : Dict BRec) (c : String) (i : LRec) (e : Event)
    (h : specEvent d c i = some e) : eventCode e = c := by
  unfold specEvent at h
  cases hg : dictGet d c with
  | none =>
    rw [hg, Option.some.injEq] at h
    rw [← h]
    rfl
  | some p =>
    rw [hg] at h
    by_cases h1 : p.isOpen = i.isOpen
    · by_cases h2 : p.seats = i.seats
      · simp [h1, h2] at h
      · simp [h1, h2] at h
        subst h
        rfl
    · simp [h1] at h
      subst h
      rfl

lemma events_for_absent_code (prev : Dict BRec) :
    ∀ (l : List (String × LRec)) (c : String), c ∉ l.map Prod.fst →
    (l.filterMap (fun ci => specEvent prev ci.1 ci.2)).filter
      (fun e => eventCode e == c) = [] := by
  intro l
  induction l with
  | nil => intro c _; rfl
  | cons ci rest ih =>
    intro c hc
    rw [List.map_cons, List.mem_cons] at hc
    push_neg at hc
    rw [List.filterMap_cons]
    cases hs : specEvent prev ci.1 ci.2 with
    | none => exact ih c hc.2
    | some e =>
      have hbc : (eventCode e == c) = false := by
        simp [specEvent_code prev ci.1 ci.2 e hs, Ne.symm hc.1]
      rw [List.filter_cons, hbc]
      simp only [Bool.false_eq_true, if_false]
      exact ih c hc.2

lemma events_per_code_le_one (prev : Dict BRec) :
    ∀ (l : List (String × LRec)), (l.map Prod.fst).Nodup → ∀ c : String,
    ((l.filterMap (fun ci => specEvent prev ci.1 ci.2)).filter
      (fun e => eventCode e == c)).length ≤ 1 := by
  intro l
  induction l with
  | nil => intro _ c; simp
  | cons ci rest ih =>
    intro hnd c
    rw [List.map_cons, List.nodup_cons] at hnd
    rw [List.filterMap_cons]
    cases hs : specEvent prev ci.1 ci.2 with
    | none => exact ih hnd.2 c
    | some e =>
      rw [List.filter_cons]
      by_cases hec : (eventCode e == c) = true
      · rw [if_pos hec]
        have hcc : c = ci.1 := (eq_of_beq hec).symm.trans (specEvent_code prev ci.1 ci.2 e hs)
        rw [events_for_absent_code prev rest c (by rw [hcc]; exact hnd.1)]
        simp
      · simp only [hec, if_false]
        exact ih hnd.2 c

/-- C3: the steady-state comparison loop classifies every code of `latest`
by the spec's priority order with first match winning: absent from baseline →
appeared; else `open` differs → open-state change with previous→new seats;
else `seats` differs → seat change; else no event.  A match replaces the
baseline entry by the latest record, a non-match leaves it untouched, codes
outside `latest` are untouched, `changed` is set iff some event fired, and at
most one of these events is emitted per code per run. -/
theorem steady_classification (prev : Dict BRec) (latest : Dict LRec)
    (hnd : (latest.map Prod.fst).Nodup) :
    (steadyLoop latest (prev, false, [])).2.2
      = latest.filterMap (fun ci => specEvent prev ci.1 ci.2)
    ∧ (∀ ci ∈ latest,
        dictGet (steadyLoop latest (prev, false, [])).1 ci.1
          = if (specEvent prev ci.1 ci.2).isSome then some (toBaselineRec ci.2)
            else dictGet prev ci.1)
    ∧ (∀ c : String, c ∉ latest.map Prod.fst →
        dictGet (steadyLoop latest (prev, false, [])).1 c = dictGet prev c)
    ∧ (steadyLoop latest (prev, false, [])).2.1
        = !(latest.filterMap (fun ci => specEvent prev ci.1 ci.2)).isEmpty
    ∧ (∀ c : String,
        ((latest.filterMap (fun ci => specEvent prev ci.1 ci.2)).filter
          (fun e => eventCode e == c)).length ≤ 1) := by
  refine ⟨?_, ?_, ?_, ?_, ?_⟩
  · simpa using steadyLoop_events latest (prev, false, []) hnd
  · intro ci hci
    simpa using steadyLoop_dict_mem latest (prev, false, []) ci hnd hci
  · intro c hc
    exact steadyLoop_dict_notmem latest (prev, false, []) c hc
  · simpa using steadyLoop_changed latest (prev, false, []) hnd
  · exact events_per_code_le_one prev latest hnd

/-- Witness for `steady_classification`: one appearing code and one
open-state change. -/
theorem steady_classification_witness :
    (steadyLoop [("ABC123", LRec.mk true 3), ("XYZ999", LRec.mk false 0)]
        ([("ABC123", BRec.mk false 0 false)], false, [])).2.2
      = [("ABC123", LRec.mk true 3), ("XYZ999", LRec.mk false 0)].filterMap
          (fun ci => specEvent [("ABC123", BRec.mk false 0 false)] ci.1 ci.2) :=
  (steady_classification [("ABC123", BRec.mk false 0 false)]
    [("ABC123", LRec.mk true 3), ("XYZ999", LRec.mk false 0)] (by decide)).1

/- Unfolding helpers for the steady-state branch of `main`. -/

lemma runMonitor_steady (cc cp : List String) (ini : Bool) (prev : Dict BRec)
    (latest0 : Dict LRec) (h : prev ≠ []) :
    runMonitor cc cp ini prev latest0
      = steadyResult cc cp prev (filterLatest cc cp latest0) := by
  simp only [runMonitor]
  rw [if_neg (by simpa [List.length_eq_zero] using h)]

lemma steadyResult_courses (cc cp : List String) (prev : Dict BRec) (latest : Dict LRec) :
    (steadyResult cc cp prev latest).courses
      = (goneLoop cc cp latest ((steadyLoop latest (prev, false, [])).1.map Prod.fst)
          (steadyLoop latest (prev, false, []))).1 := rfl

lemma steadyResult_events (cc cp : List String) (prev : Dict BRec) (latest : Dict LRec) :
    (steadyResult cc cp prev latest).events
      = (goneLoop cc cp latest ((steadyLoop latest (prev, false, [])).1.map Prod.fst)
          (steadyLoop latest (prev, false, []))).2.2 := rfl

lemma steadyResult_changed (cc cp : List String) (prev : Dict BRec) (latest : Dict LRec) :
    (steadyResult cc cp prev latest).changed
      = (goneLoop cc cp latest ((steadyLoop latest (prev, false, [])).1.map Prod.fst)
          (steadyLoop latest (prev, false, []))).2.1 := rfl

lemma steadyResult_persisted (cc cp : List String) (prev : Dict BRec) (latest : Dict LRec) :
    (steadyResult cc cp prev latest).persisted
      = (goneLoop cc cp latest ((steadyLoop latest (prev, false, [])).1.map Prod.fst)
          (steadyLoop latest (prev, false, []))).2.1 := rfl

lemma steadyResult_reported (cc cp : List String) (prev : Dict BRec) (latest : Dict LRec) :
    (steadyResult cc cp prev latest).reportedNoChanges
      = !(goneLoop cc cp latest ((steadyLoop latest (prev, false, [])).1.map Prod.fst)
          (steadyLoop latest (prev, false, []))).2.1 := rfl

lemma filterLatest_nodup (cc cp : List String) (latest0 : Dict LRec)
    (h : (latest0.map Prod.fst).Nodup) :
    ((filterLatest cc cp latest0).map Prod.fst).Nodup :=
  List.Nodup.sublist (List.Sublist.map Prod.fst (List.filter_sublist latest0)) h

lemma goneSpecEvent_none_of_present (cc cp : List String) (latest : Dict LRec)
    (d : Dict BRec) (c : String) (h : (dictGet latest c).isSome = true) :
    goneSpecEvent cc cp latest d c = none := by
  have hn : (dictGet latest c).isNone = false := by
    cases hd : dictGet latest c
    · rw [hd] at h; simp at h
    · rfl
  unfold goneSpecEvent
  rw [hn]
  simp

lemma specEvent_isSome_of_change (prev : Dict BRec) (c : String) (i : LRec)
    (h : dictGet prev c = none
       ∨ ∃ r, dictGet prev c = some r ∧ (r.isOpen ≠ i.isOpen ∨ r.seats ≠ i.seats)) :
    (specEvent prev c i).isSome = true := by
  cases hs : specEvent prev c i with
  | some e => rfl
  | none =>
    rcases (specEvent_none_iff prev c i).mp hs with ⟨p, hp, h1, h2⟩
    rcases h with h | ⟨r, hr, hor⟩
    · rw [h] at hp
      exact Option.noConfusion hp
    · rw [hr] at hp
      injection hp with hrp
      subst hrp
      rcases hor with h' | h'
      · exact absurd h1 h'
      · exact absurd h2 h'

/-- C9: a steady-state match (appeared, open-changed or seats-changed)
replaces the whole baseline entry by the latest record, so a previously set
gone-notified flag is dropped by the replacement; a gone-marked course that
reappears with open and seats identical to its baseline record hits the
no-change branch, so its record — flag included — is kept unchanged. -/
theorem baseline_update_gone_flag (cc cp : List String) (ini : Bool)
    (prev : Dict BRec) (latest0 : Dict LRec) (hprev : prev ≠ [])
    (hndp : (prev.map Prod.fst).Nodup) (hndl : (latest0.map Prod.fst).Nodup)
    (ci : String × LRec) (hmem : ci ∈ filterLatest cc cp latest0) :
    ((dictGet prev ci.1 = none
        ∨ ∃ r, dictGet prev ci.1 = some r
            ∧ (r.isOpen ≠ ci.2.isOpen ∨ r.seats ≠ ci.2.seats)) →
      dictGet (runMonitor cc cp ini prev latest0).courses ci.1
        = some (toBaselineRec ci.2))
    ∧ (∀ r : BRec, dictGet prev ci.1 = some r → r.isOpen = ci.2.isOpen →
        r.seats = ci.2.seats →
      dictGet (runMonitor cc cp ini prev latest0).courses ci.1 = some r) := by
  have hndf := filterLatest_nodup cc cp latest0 hndl
  have hlg : dictGet (filterLatest cc cp latest0) ci.1 = some ci.2 :=
    dictGet_of_mem_nodup _ _ hndf hmem
  rw [runMonitor_steady cc cp ini prev latest0 hprev]
  have hnd1 :
      ((steadyLoop (filterLatest cc cp latest0) (prev, false, [])).1.map Prod.fst).Nodup :=
    steadyLoop_nodup _ _ hndp
  constructor
  · intro h
    have hs := specEvent_isSome_of_change prev ci.1 ci.2 h
    have hst : dictGet (steadyLoop (filterLatest cc cp latest0) (prev, false, [])).1 ci.1
        = some (toBaselineRec ci.2) := by
      rw [steadyLoop_dict_mem (filterLatest cc cp latest0) (prev, false, []) ci hndf hmem]
      simp [hs]
    rw [steadyResult_courses,
      goneLoop_dict_of_none cc cp _ _ _ _ hnd1
        (goneSpecEvent_none_of_present cc cp _ _ _ (by rw [hlg]; rfl)),
      hst]
  · intro r hr h1 h2
    have hs : specEvent prev ci.1 ci.2 = none :=
      (specEvent_none_iff prev ci.1 ci.2).mpr ⟨r, hr, h1, h2⟩
    have hst : dictGet (steadyLoop (filterLatest cc cp latest0) (prev, false, [])).1 ci.1
        = some r := by
      rw [steadyLoop_dict_mem (filterLatest cc cp latest0) (prev, false, []) ci hndf hmem]
      simp [hs, hr]
    rw [steadyResult_courses,
      goneLoop_dict_of_none cc cp _ _ _ _ hnd1
        (goneSpecEvent_none_of_present cc cp _ _ _ (by rw [hlg]; rfl)),
      hst]

/-- Witness for `baseline_update_gone_flag`: a gone-marked course reappearing
with an identical record keeps its flag set; one whose open state changed is
replaced and loses it. -/
theorem baseline_update_gone_flag_witness :
    dictGet (runMonitor [] [] false
        [("ABC123", BRec.mk true 5 true), ("XYZ999", BRec.mk false 0 true)]
        [("ABC123", LRec.mk true 5), ("XYZ999", LRec.mk true 3)]).courses "ABC123"
      = some (BRec.mk true 5 true)
    ∧ dictGet (runMonitor [] [] false
        [("ABC123", BRec.mk true 5 true), ("XYZ999", BRec.mk false 0 true)]
        [("ABC123", LRec.mk true 5), ("XYZ999", LRec.mk true 3)]).courses "XYZ999"
      = some (toBaselineRec (LRec.mk true 3)) :=
  ⟨(baseline_update_gone_flag [] [] false _ _ (by decide) (by decide) (by decide)
      ("ABC123", LRec.mk true 5) (by decide)).2 (BRec.mk true 5 true) (by decide) rfl rfl,
   (baseline_update_gone_flag [] [] false _ _ (by decide) (by decide) (by decide)
      ("XYZ999", LRec.mk true 3) (by decide)).1
      (Or.inr ⟨BRec.mk false 0 true, by decide, Or.inl (by decide)⟩)⟩

/- Counting disappearance events. -/

lemma count_disappeared_specEvents (prev : Dict BRec) (l : List (String × LRec)) (c : String) :
    (l.filterMap (fun ci => specEvent prev ci.1 ci.2)).count (Event.disappeared c) = 0 := by
  rw [List.count_eq_zero]
  intro h
  rcases List.mem_filterMap.mp h with ⟨ci, _, hci⟩
  exact specEvent_ne_disappeared prev ci.1 c ci.2 hci

lemma count_disappeared_filterMap_notmem (c : String) (f : String → Option Event)
    (hf : ∀ c', f c' = none ∨ f c' = some (Event.disappeared c')) :
    ∀ keys : List String, c ∉ keys →
    (keys.filterMap f).count (Event.disappeared c) = 0 := by
  intro keys
  induction keys with
  | nil => intro _; rfl
  | cons k rest ih =>
    intro hc
    rw [List.mem_cons] at hc
    push_neg at hc
    rw [List.filterMap_cons]
    rcases hf k with h | h
    · rw [h]
      exact ih hc.2
    · rw [h, List.count_cons, ih hc.2]
      simp [Ne.symm hc.1]

lemma count_disappeared_filterMap (c : String) (f : String → Option Event)
    (hf : ∀ c', f c' = none ∨ f c' = some (Event.disappeared c')) :
    ∀ keys : List String, keys.Nodup →
    (keys.filterMap f).count (Event.disappeared c)
      = if c ∈ keys ∧ (f c).isSome then 1 else 0 := by
  intro keys
  induction keys with
  | nil => intro _; simp
  | cons k rest ih =>
    intro hnd
    rw [List.nodup_cons] at hnd
    rw [List.filterMap_cons]
    by_cases hk : k = c
    · subst hk
      have hrest := count_disappeared_filterMap_notmem k f hf rest hnd.1
      rcases hf k with h | h
      · rw [h, hrest]
        simp [h]
      · rw [h, List.count_cons, hrest]
        simp [h]
    · have hmem : (c ∈ k :: rest ∧ (f c).isSome = true)
          ↔ (c ∈ rest ∧ (f c).isSome = true) := by
        rw [List.mem_cons]
        simp [Ne.symm hk]
      rcases hf k with h | h
      · rw [h, ih hnd.2]
        simp only [hmem]
      · rw [h, List.count_cons, ih hnd.2]
        simp only [hmem]
        simp [hk]

/-- Counterexample to C2 as stated: a course disappears (one event fires and
the gone flag is set), reappears with open and seats identical to its
baseline record (the no-change branch keeps the flag set), and disappears
again — the new absence episode emits zero disappearance events, not
exactly one. -/
theorem gone_reappear_identical_counterexample :
    (runMonitor [] [] false [("ABC123", BRec.mk true 5 false)] []).events
      = [Event.disappeared "ABC123"]
    ∧ (runMonitor [] [] false
        (runMonitor [] [] false [("ABC123", BRec.mk true 5 false)] []).courses
        [("ABC123", LRec.mk true 5)]).events = []
    ∧ (runMonitor [] [] false
        (runMonitor [] [] false
          (runMonitor [] [] false [("ABC123", BRec.mk true 5 false)] []).courses
          [("ABC123", LRec.mk true 5)]).courses
        []).events = [] := by
  decide

/-- C2 (amended): a disappearance notification fires at most once per
absence episode.  Once the gone flag is set on a baseline record, a steady
run in which the code is still absent from `latest` emits no disappearance
event for it and leaves the record (flag included) unchanged — so no later
absent run ever re-fires.  When the flag is clear (in particular after the
replacement that a record-updating reappearance performs, see C9), a steady
run in which the in-scope code is absent emits exactly one disappearance
event and sets the flag.  A code that reappears with an identical record
keeps the flag set, so a later absence emits no new event (see the
counterexample). -/
theorem gone_once_per_episode (cc cp : List String) (ini : Bool)
    (prev : Dict BRec) (latest0 : Dict LRec) (hprev : prev ≠ [])
    (hndp : (prev.map Prod.fst).Nodup) (hndl : (latest0.map Prod.fst).Nodup)
    (c : String) (r : BRec) (hc : dictGet prev c = some r)
    (habs : dictGet latest0 c = none) :
    (r.goneNotified = true →
      (runMonitor cc cp ini prev latest0).events.count (Event.disappeared c) = 0
      ∧ dictGet (runMonitor cc cp ini prev latest0).courses c = some r)
    ∧ (r.goneNotified = false → passes_filter cc cp c = true →
      (runMonitor cc cp ini prev latest0).events.count (Event.disappeared c) = 1
      ∧ dictGet (runMonitor cc cp ini prev latest0).courses c
          = some (BRec.mk r.isOpen r.seats true)) := by
  have hndf := filterLatest_nodup cc cp latest0 hndl
  have habs' : dictGet (filterLatest cc cp latest0) c = none :=
    dictGet_filter_none _ _ _ habs
  have hcnot : c ∉ (filterLatest cc cp latest0).map Prod.fst :=
    (dictGet_eq_none_iff _ _).mp habs'
  have hst1c : dictGet (steadyLoop (filterLatest cc cp latest0) (prev, false, [])).1 c
      = some r := by
    rw [steadyLoop_dict_notmem (filterLatest cc cp latest0) (prev, false, []) c hcnot]
    exact hc
  have hnd1 :
      ((steadyLoop (filterLatest cc cp latest0) (prev, false, [])).1.map Prod.fst).Nodup :=
    steadyLoop_nodup _ _ hndp
  have hckeys : c ∈ (steadyLoop (filterLatest cc cp latest0) (prev, false, [])).1.map Prod.fst :=
    steadyLoop_mem_keys _ _ _ ((dictGet_isSome_iff_mem_keys prev c).mp (by rw [hc]; rfl))
  have hevs : (steadyResult cc cp prev (filterLatest cc cp latest0)).events
      = (steadyLoop (filterLatest cc cp latest0) (prev, false, [])).2.2
        ++ ((steadyLoop (filterLatest cc cp latest0) (prev, false, [])).1.map
            Prod.fst).filterMap
          (goneSpecEvent cc cp (filterLatest cc cp latest0)
            (steadyLoop (filterLatest cc cp latest0) (prev, false, [])).1) := by
    rw [steadyResult_events]
    exact goneLoop_events cc cp _ _ _ hnd1
  have hsevs : (steadyLoop (filterLatest cc cp latest0) (prev, false, [])).2.2
      = (filterLatest cc cp latest0).filterMap (fun ci => specEvent prev ci.1 ci.2) := by
    simpa using steadyLoop_events (filterLatest cc cp latest0) (prev, false, []) hndf
  rw [runMonitor_steady cc cp ini prev latest0 hprev]
  constructor
  · intro hgone
    have hgs : goneSpecEvent cc cp (filterLatest cc cp latest0)
        (steadyLoop (filterLatest cc cp latest0) (prev, false, [])).1 c = none := by
      unfold goneSpecEvent
      rw [hst1c]
      by_cases hcond :
          (passes_filter cc cp c && (dictGet (filterLatest cc cp latest0) c).isNone) = true
      · rw [if_pos hcond]
        simp [hgone]
      · rw [if_neg hcond]
    constructor
    · rw [hevs, List.count_append, hsevs, count_disappeared_specEvents,
        count_disappeared_filterMap c _ (goneSpecEvent_shape cc cp _ _) _ hnd1]
      simp [hgs]
    · rw [steadyResult_courses, goneLoop_dict_of_none cc cp _ _ _ _ hnd1 hgs]
      exact hst1c
  · intro hgone hpass
    have hgs : goneSpecEvent cc cp (filterLatest cc cp latest0)
        (steadyLoop (filterLatest cc cp latest0) (prev, false, [])).1 c
        = some (Event.disappeared c) := by
      unfold goneSpecEvent
      rw [hst1c, habs', if_pos (by simp [hpass])]
      simp [hgone]
    constructor
    · rw [hevs, List.count_append, hsevs, count_disappeared_specEvents,
        count_disappeared_filterMap c _ (goneSpecEvent_shape cc cp _ _) _ hnd1]
      simp [hgs, hckeys]
    · rw [steadyResult_courses]
      exact goneLoop_dict_of_some cc cp _ _ _ _ r hnd1 hckeys hst1c (by rw [hgs]; rfl)

/-- Witness for `gone_once_per_episode`: an already-notified absent course
emits nothing and stays unchanged; a not-yet-notified absent course emits
exactly one disappearance and gets its flag set. -/
theorem gone_once_per_episode_witness :
    ((runMonitor [] [] false [("ABC123", BRec.mk true 5 true)] []).events.count
        (Event.disappeared "ABC123") = 0
      ∧ dictGet (runMonitor [] [] false [("ABC123", BRec.mk true 5 true)] []).courses
          "ABC123" = some (BRec.mk true 5 true))
    ∧ ((runMonitor [] [] false [("DEF456", BRec.mk true 5 false)] []).events.count
        (Event.disappeared "DEF456") = 1
      ∧ dictGet (runMonitor [] [] false [("DEF456", BRec.mk true 5 false)] []).courses
          "DEF456" = some (BRec.mk true 5 true)) :=
  ⟨(gone_once_per_episode [] [] false [("ABC123", BRec.mk true 5 true)] []
      (by decide) (by decide) (by decide)
      "ABC123" (BRec.mk true 5 true) (by decide) rfl).1 rfl,
   (gone_once_per_episode [] [] false [("DEF456", BRec.mk true 5 false)] []
      (by decide) (by decide) (by decide)
      "DEF456" (BRec.mk true 5 false) (by decide) rfl).2 rfl (by decide)⟩

/- Idempotence machinery. -/

lemma steady_run_noop (cc cp : List String) (L : Dict LRec) (d : Dict BRec)
    (hA : ∀ ci ∈ L, ∃ p, dictGet d ci.1 = some p
        ∧ p.isOpen = ci.2.isOpen ∧ p.seats = ci.2.seats)
    (hB : ∀ c ∈ d.map Prod.fst, passes_filter cc cp c = true → dictGet L c = none →
        ∃ r', dictGet d c = some r' ∧ r'.goneNotified = true) :
    steadyResult cc cp d L
      = { courses := d, events := [], persisted := false, changed := false,
          reportedNoChanges := true } := by
  have hnoop1 : steadyLoop L (d, false, []) = (d, false, []) := by
    apply steadyLoop_noop
    intro ci hci
    rcases hA ci hci with ⟨p, hp, h1, h2⟩
    exact (specEvent_none_iff d ci.1 ci.2).mpr ⟨p, hp, h1, h2⟩
  have hnoop2 : goneLoop cc cp L (d.map Prod.fst) (d, false, []) = (d, false, []) := by
    apply goneLoop_noop
    intro c hc
    by_cases hcond : (passes_filter cc cp c && (dictGet L c).isNone) = true
    · have hpass : passes_filter cc cp c = true := (Bool.and_eq_true _ _).mp hcond |>.1
      have habs : dictGet L c = none :=
        Option.isNone_iff_eq_none.mp ((Bool.and_eq_true _ _).mp hcond).2
      rcases hB c hc hpass habs with ⟨r', hr', hgone⟩
      unfold goneSpecEvent
      rw [hr', if_pos hcond]
      simp [hgone]
    · unfold goneSpecEvent
      rw [if_neg hcond]
  unfold steadyResult
  dsimp only
  rw [hnoop1]
  dsimp only
  rw [hnoop2]
  rfl

lemma run_output_stable (cc cp : List String) (prev : Dict BRec) (L : Dict LRec)
    (hprev : prev ≠ []) (hndp : (prev.map Prod.fst).Nodup)
    (hndL : (L.map Prod.fst).Nodup) :
    (∀ ci ∈ L, ∃ p, dictGet (steadyResult cc cp prev L).courses ci.1 = some p
        ∧ p.isOpen = ci.2.isOpen ∧ p.seats = ci.2.seats)
    ∧ (∀ c ∈ (steadyResult cc cp prev L).courses.map Prod.fst,
        passes_filter cc cp c = true → dictGet L c = none →
        ∃ r', dictGet (steadyResult cc cp prev L).courses c = some r'
          ∧ r'.goneNotified = true)
    ∧ ((steadyResult cc cp prev L).courses.map Prod.fst).Nodup
    ∧ (steadyResult cc cp prev L).courses ≠ [] := by
  have hnd1 : ((steadyLoop L (prev, false, [])).1.map Prod.fst).Nodup :=
    steadyLoop_nodup _ _ hndp
  have hne1 := steadyLoop_ne_nil L (prev, false, []) hprev
  have hkeys := goneLoop_keys cc cp L ((steadyLoop L (prev, false, [])).1.map Prod.fst)
    (steadyLoop L (prev, false, []))
  rw [steadyResult_courses]
  refine ⟨?_, ?_, ?_, ?_⟩
  · intro ci hci
    have hlat : dictGet L ci.1 = some ci.2 := dictGet_of_mem_nodup _ _ hndL hci
    have hpres := goneSpecEvent_none_of_present cc cp L
      (steadyLoop L (prev, false, [])).1 ci.1 (by rw [hlat]; rfl)
    rw [goneLoop_dict_of_none cc cp L _ _ _ hnd1 hpres]
    rw [steadyLoop_dict_mem L (prev, false, []) ci hndL hci]
    by_cases hs : (specEvent prev ci.1 ci.2).isSome = true
    · exact ⟨toBaselineRec ci.2, by rw [if_pos hs], rfl, rfl⟩
    · have hnone : specEvent prev ci.1 ci.2 = none := by
        cases hsE : specEvent prev ci.1 ci.2
        · rfl
        · rw [hsE] at hs
          simp at hs
      rcases (specEvent_none_iff prev ci.1 ci.2).mp hnone with ⟨p, hp, h1, h2⟩
      exact ⟨p, by rw [if_neg hs]; exact hp, h1, h2⟩
  · intro c hc hpass habs
    rw [hkeys] at hc
    have hS1some : (dictGet (steadyLoop L (prev, false, [])).1 c).isSome = true :=
      (dictGet_isSome_iff_mem_keys _ c).mpr hc
    rcases Option.isSome_iff_exists.mp hS1some with ⟨r0, hr0⟩
    by_cases hg0 : r0.goneNotified = true
    · have hgs : goneSpecEvent cc cp L (steadyLoop L (prev, false, [])).1 c = none := by
        unfold goneSpecEvent
        rw [hr0]
        by_cases hcond : (passes_filter cc cp c && (dictGet L c).isNone) = true
        · rw [if_pos hcond]
          simp [hg0]
        · rw [if_neg hcond]
      rw [goneLoop_dict_of_none cc cp L _ _ _ hnd1 hgs, hr0]
      exact ⟨r0, rfl, hg0⟩
    · have hgs : (goneSpecEvent cc cp L (steadyLoop L (prev, false, [])).1 c).isSome
          = true := by
        unfold goneSpecEvent
        rw [hr0, habs, if_pos (by simp [hpass])]
        simp [hg0]
      rw [goneLoop_dict_of_some cc cp L _ _ c r0 hnd1 hc hr0 hgs]
      exact ⟨_, rfl, rfl⟩
  · rw [hkeys]
    exact hnd1
  · exact goneLoop_ne_nil cc cp L _ _ hne1

/-- C4: the Differ is idempotent.  If a steady run (non-empty baseline)
produces an updated baseline that is persisted, a second run with the
identical latest input against that baseline yields `changed=false`, emits
no events, does not write the state file, and reports "no changes". -/
theorem differ_idempotent (cc cp : List String) (ini : Bool) (prev : Dict BRec)
    (latest0 : Dict LRec) (hprev : prev ≠ [])
    (hndp : (prev.map Prod.fst).Nodup) (hndl : (latest0.map Prod.fst).Nodup)
    (hpersist : (runMonitor cc cp ini prev latest0).persisted = true) :
    (runMonitor cc cp ini (runMonitor cc cp ini prev latest0).courses latest0).changed
        = false
    ∧ (runMonitor cc cp ini (runMonitor cc cp ini prev latest0).courses latest0).events
        = []
    ∧ (runMonitor cc cp ini (runMonitor cc cp ini prev latest0).courses latest0).persisted
        = false
    ∧ (runMonitor cc cp ini
        (runMonitor cc cp ini prev latest0).courses latest0).reportedNoChanges = true := by
  have hndf := filterLatest_nodup cc cp latest0 hndl
  obtain ⟨hA, hB, hnd2, hne2⟩ :=
    run_output_stable cc cp prev (filterLatest cc cp latest0) hprev hndp hndf
  have hr1 := runMonitor_steady cc cp ini prev latest0 hprev
  have hr2 : runMonitor cc cp ini (runMonitor cc cp ini prev latest0).courses latest0
      = steadyResult cc cp (runMonitor cc cp ini prev latest0).courses
          (filterLatest cc cp latest0) :=
    runMonitor_steady cc cp ini _ latest0 (by rw [hr1]; exact hne2)
  rw [hr2, hr1]
  rw [steady_run_noop cc cp (filterLatest cc cp latest0)
    (steadyResult cc cp prev (filterLatest cc cp latest0)).courses hA hB]
  exact ⟨rfl, rfl, rfl, rfl⟩

/-- Witness for `differ_idempotent`: a seat-count change is applied and
persisted on the first run; the repeat run is a no-op. -/
theorem differ_idempotent_witness :
    (runMonitor [] [] false
        (runMonitor [] [] false [("ABC123", BRec.mk true 5 false)]
          [("ABC123", LRec.mk true 2)]).courses
        [("ABC123", LRec.mk true 2)]).changed = false
    ∧ (runMonitor [] [] false
        (runMonitor [] [] false [("ABC123", BRec.mk true 5 false)]
          [("ABC123", LRec.mk true 2)]).courses
        [("ABC123", LRec.mk true 2)]).events = []
    ∧ (runMonitor [] [] false
        (runMonitor [] [] false [("ABC123", BRec.mk true 5 false)]
          [("ABC123", LRec.mk true 2)]).courses
        [("ABC123", LRec.mk true 2)]).persisted = false
    ∧ (runMonitor [] [] false
        (runMonitor [] [] false [("ABC123", BRec.mk true 5 false)]
          [("ABC123", LRec.mk true 2)]).courses
        [("ABC123", LRec.mk true 2)]).reportedNoChanges = true :=
  differ_idempotent [] [] false [("ABC123", BRec.mk true 5 false)]
    [("ABC123", LRec.mk true 2)] (by decide) (by decide) (by decide) (by decide)

/- Extractor record invariants. -/

lemma mem_parseCells (out : Dict LRec) (valign : Option String) :
    ∀ (cells : List String) (out' : Dict LRec),
    parseCells out valign cells = Except.ok out' → ∀ ci ∈ out',
    ci ∈ out
    ∨ ∃ hne : cells ≠ [], ∃ seats,
        extract_int (cells.getLast hne) = some seats
        ∧ ci.2 = LRec.mk (decide (seats > 0)) seats := by
  intro cells out' h ci hci
  cases cells with
  | nil =>
    rw [parseCells] at h
    injection h with h
    exact Or.inl (h ▸ hci)
  | cons c0 rest =>
    rw [parseCells] at h
    by_cases hskip : valign ≠ some "top" ∧ (c0 :: rest).length < 7
    · rw [if_pos hskip] at h
      injection h with h
      exact Or.inl (h ▸ hci)
    · rw [if_neg hskip] at h
      split at h
      · exact absurd h (by simp)
      · split at h
        · injection h with h
          exact Or.inl (h ▸ hci)
        · split at h
          · injection h with h
            exact Or.inl (h ▸ hci)
          · rename_i seats h3
            injection h with h
            subst h
            rcases mem_dictSet _ _ _ _ hci with hmem | heq
            · exact Or.inl hmem
            · right
              refine ⟨by simp, seats, h3, ?_⟩
              rw [heq]

lemma parseRows_mem : ∀ (rs : List Row) (acc out : Dict LRec),
    parseRows rs acc = Except.ok out → ∀ ci ∈ out,
    ci ∈ acc
    ∨ ∃ row ∈ rs, ∃ hne : row.cells ≠ [], ∃ seats,
        extract_int (row.cells.getLast hne) = some seats
        ∧ ci.2 = LRec.mk (decide (seats > 0)) seats := by
  intro rs
  induction rs with
  | nil =>
    intro acc out h ci hci
    rw [parseRows] at h
    injection h with h
    exact Or.inl (h ▸ hci)
  | cons row rest ih =>
    intro acc out h ci hci
    rw [parseRows] at h
    cases hp : parseRow acc row with
    | error e =>
      rw [hp] at h
      exact absurd h (by simp)
    | ok acc' =>
      rw [hp] at h
      rcases ih acc' out h ci hci with hmem | ⟨r, hr, hrest⟩
      · rcases mem_parseCells acc row.valign row.cells acc' hp ci hmem with
          h' | ⟨hne, seats, hx, he⟩
        · exact Or.inl h'
        · exact Or.inr ⟨row, List.mem_cons_self _ _, hne, seats, hx, he⟩
      · exact Or.inr ⟨r, List.mem_cons_of_mem _ hr, hrest⟩

/-- C6: every record emitted by the extractor carries a `seats` value that is
the first integer substring of the last cell of some input row — a `Nat`,
hence non-negative — and its `open` field is true iff `seats > 0`, as set at
extraction time. -/
theorem extracted_records_invariant (rows : List Row) (out : Dict LRec)
    (hok : parse_page rows = Except.ok out) :
    ∀ ci ∈ out, ci.2.isOpen = decide (ci.2.seats > 0)
      ∧ ∃ row ∈ rows, ∃ hne : row.cells ≠ [],
          extract_int (row.cells.getLast hne) = some ci.2.seats := by
  intro ci hci
  rcases parseRows_mem rows [] out hok ci hci with h | ⟨row, hrow, hne, seats, hx, he⟩
  · simp at h
  · constructor
    · rw [he]
    · exact ⟨row, hrow, hne, by rw [he]; exact hx⟩

/-- Witness for `extracted_records_invariant` on a one-row page whose last
cell reads "3". -/
theorem extracted_records_invariant_witness :
    (("ABC123", LRec.mk true 3) : String × LRec).2.isOpen
        = decide ((("ABC123", LRec.mk true 3) : String × LRec).2.seats > 0)
    ∧ ∃ row ∈ [Row.mk (some "top") ["", "ABC123", "3"]], ∃ hne : row.cells ≠ [],
        extract_int (row.cells.getLast hne)
          = some (("ABC123", LRec.mk true 3) : String × LRec).2.seats :=
  extracted_records_invariant [Row.mk (some "top") ["", "ABC123", "3"]]
    [("ABC123", LRec.mk true 3)] rfl ("ABC123", LRec.mk true 3) (by decide)
